import Mathlib

/-!
Verification of the gossip-example state-convergence core (src/main.go).

The Go program runs a cluster of `server` values, each holding a timestamped
`state` record. Incoming records are merged through `processStateChange`
(last-writer-wins by timestamp); accepted changes are pushed onto a
memberlist `TransmitLimitedQueue` as `StateChange` broadcasts, and a reporter
goroutine recomputes a convergence score on every update notification.

Embedding choices:
* `time.Time` is modelled as `Int` (a totally ordered instant);
  `a.Before(b)` is `a.TS < b.TS` and `a.After(b)` is `b.TS < a.TS`.
* Byte slices on the wire are modelled by the `Payload` type: `json.Marshal`
  of a `state` yields a `Payload.record` carrying exactly its `{TS, Value}`
  fields, and every undecodable byte sequence is collapsed into
  `Payload.malformed` (which `jsonUnmarshalState` rejects).  This is the
  spec's wire-format contract ("a serialized record containing exactly
  {timestamp, value}"); byte-level JSON is external library behaviour.
* The `updates` channel is modelled by a send counter `updatesSent`.
* `logger.Fatal` terminates the process, so the message handlers return
  `Option server`, with `none` for process termination.
* The broadcast queue lives in the external memberlist library; its
  enqueue/drain behaviour (`queueBroadcast`, `drainEntries`) is modelled
  from the spec, see their doc comments.
-/

/-- The `state` struct of src/main.go: a timestamped value.
`TS` models `time.Time` as an integer instant. -/
structure state where
  TS : Int
  Value : String
deriving DecidableEq, Repr

/-- Model of a `[]byte` wire payload. `json.Marshal` of a `state` produces a
record payload holding exactly the `{TS, Value}` fields; every byte sequence
that does not decode into a `state` is `malformed`.
Modelled from the spec: `encoding/json` is external library code; the spec's
wire-format sentence fixes the payload to "a serialized record containing
exactly {timestamp, value}", with malformed payloads failing to decode. -/
inductive Payload where
  | record (ts : Int) (value : String)
  | malformed
deriving DecidableEq, Repr

/-- Model of `json.Marshal` applied to a `state` (always succeeds in the Go
code; the error is discarded there). -/
def jsonMarshalState (st : state) : Payload :=
  Payload.record st.TS st.Value

/-- Model of `json.Unmarshal` into a `state`: recovers the record carried by
a well-formed payload and fails on a malformed one. -/
def jsonUnmarshalState : Payload → Option state
  | Payload.record ts v => some ⟨ts, v⟩
  | Payload.malformed => none

/-- The `StateChange` broadcast of src/main.go: wraps one `state`
(an embedded field in Go). -/
structure StateChange where
  state : state
deriving DecidableEq, Repr

/-- A `memberlist.Broadcast`: the queue is typed against this interface.
The program only ever enqueues `StateChange`, but `Invalidates` performs a
dynamic type assertion against it, so the model keeps a second constructor
for any broadcast of a different concrete type. -/
inductive Broadcast where
  | stateChange (sc : StateChange)
  | other
deriving DecidableEq, Repr

/-- `StateChange.Invalidates` from src/main.go lines 213-219: the type
assertion `b.(StateChange)` fails for any other broadcast kind (return
false); otherwise compare `s.TS.After(o.TS)`, i.e. strictly later. -/
def StateChange.Invalidates (s : StateChange) (b : Broadcast) : Bool :=
  match b with
  | Broadcast.stateChange o => o.state.TS < s.state.TS
  | Broadcast.other => false

/-- `StateChange.Message` from src/main.go lines 221-224:
`json.Marshal(s.state)`. -/
def StateChange.Message (s : StateChange) : Payload :=
  jsonMarshalState s.state

/-- The fields of the Go `server` that the verified core touches: its held
`state`, the contents of its broadcast queue, and the number of update
notifications it has sent on the `updates` channel. -/
structure server where
  state : state
  queue : List Broadcast
  updatesSent : Nat
deriving DecidableEq, Repr

/-- Modelled from the spec: `memberlist.TransmitLimitedQueue.QueueBroadcast`
(the queue implementation is the external memberlist library, not in src/).
Spec section 4.2: "`enqueue(entry)`: appends a new entry; any existing queued
entry for which `entry.invalidates(existing)` is true must be atomically
removed first". -/
def queueBroadcast (b : StateChange) (q : List Broadcast) : List Broadcast :=
  (q.filter (fun e => !(StateChange.Invalidates b e))) ++ [Broadcast.stateChange b]

/-- Byte size of a payload, for the drain budget model. -/
def Payload.size : Payload → Nat
  | Payload.record _ v => v.length + 16
  | Payload.malformed => 1

/-- The payload a queued broadcast serializes to (`Broadcast.Message()` in
memberlist; for our only broadcast kind this is `StateChange.Message`). -/
def broadcastMessage : Broadcast → Payload
  | Broadcast.stateChange sc => sc.Message
  | Broadcast.other => Payload.malformed

/-- Modelled from the spec: the entry-selection part of
`TransmitLimitedQueue.GetBroadcasts` (external memberlist library).
Spec section 4.2: drain "selects entries from the queue, serializes each, and
returns as many as fit within `limitBytes` after accounting for
`overheadBytes` per-item transport overhead", FIFO, with oversized entries
"silently skipped for that round". The concrete `Payload.size` model is
irrelevant to the verified properties, which only use that drained entries
come from the queue. -/
def drainEntries (overhead : Nat) : Nat → List Broadcast → List Broadcast
  | _, [] => []
  | limit, e :: rest =>
    if overhead + (broadcastMessage e).size ≤ limit then
      e :: drainEntries overhead (limit - (overhead + (broadcastMessage e).size)) rest
    else
      drainEntries overhead limit rest

/-- `GetBroadcasts` from src/main.go lines 171-173, with the drain modelled
from the spec: serialize the selected entries. -/
def getBroadcasts (overhead limit : Nat) (q : List Broadcast) : List Payload :=
  (drainEntries overhead limit q).map broadcastMessage

/-- `processStateChange` from src/main.go lines 199-207:
reject (plain return) when `newState.TS.Before(s.state.TS)`; otherwise
replace the held state, send on the `updates` channel, and
`QueueBroadcast(StateChange{s.state})`. -/
def processStateChange (s : server) (newState : state) : server :=
  if newState.TS < s.state.TS then s
  else
    { state := newState
      queue := queueBroadcast ⟨newState⟩ s.queue
      updatesSent := s.updatesSent + 1 }

/-- The ConflictResolver contract of spec section 4.1, as implemented by the
guard of `processStateChange`: accept exactly when the incoming timestamp is
not strictly before the current one. -/
def accept (current incoming : state) : Bool :=
  !(incoming.TS < current.TS)

/-- `NotifyMsg` from src/main.go lines 155-163: `json.Unmarshal` the payload;
on error the code calls `s.logger.Fatal(err)`, which terminates the process
(modelled as `none`); otherwise `processStateChange`. -/
def NotifyMsg (s : server) (buf : Payload) : Option server :=
  match jsonUnmarshalState buf with
  | none => none
  | some remoteState => some (processStateChange s remoteState)

/-- `MergeRemoteState` from src/main.go lines 189-197: identical body to
`NotifyMsg` (the `join` flag is only logged). -/
def MergeRemoteState (s : server) (buf : Payload) (join : Bool) : Option server :=
  match jsonUnmarshalState buf with
  | none => none
  | some remoteState => some (processStateChange s remoteState)

/-- `LocalState` from src/main.go lines 179-183: `json.Marshal(s.state)`
(the `join` flag is only logged). -/
def LocalState (s : server) (join : Bool) : Payload :=
  jsonMarshalState s.state

/-- Delivering a list of incoming records to one node in order, each through
`processStateChange`. Mutations (`server.mutate`) also go through
`processStateChange`, so they are further elements of the list. -/
def deliverAll (s : server) (rs : List state) : server :=
  rs.foldl processStateChange s

/-- The reporter's per-value frequency count (src/main.go lines 42-49):
`counts[s.state.Value]++` folded over the servers, as a function from value
to count (the Go map, with absent keys reading 0). -/
def reportCounts (states : List state) : String → Nat :=
  states.foldl (fun counts s v => if v = s.Value then counts v + 1 else counts v)
    (fun _ => 0)

/-- The reporter's newest-record fold (src/main.go lines 43-47):
`if s.state.TS.After(newest.TS) then newest = s.state`, starting from the Go
zero value of `state` (zero time, empty value). Strict `After` makes ties
first-seen-wins. -/
def reportNewest (states : List state) : state :=
  states.foldl (fun newest s => if newest.TS < s.TS then s else newest) ⟨0, ""⟩

/-- The reporter's score (src/main.go line 51):
`100 * (counts[newest.Value] / len(servers))`, as an exact rational.
The Go code computes this in `float32`; for the values at issue the float32
rounding error (relative error below 2^-23) cannot move the value across a
rounding boundary, so the exact rational is a faithful model. -/
def scoreQ (states : List state) : ℚ :=
  100 * ((reportCounts states (reportNewest states).Value : ℚ) / (states.length : ℚ))

/-- The integer percentage the reporter prints (src/main.go line 52):
`%.0f` formats the score rounded to the nearest integer. -/
def displayedScore (states : List state) : ℤ :=
  round (scoreQ states)

/-! ## Shared lemmas -/

/-- The held state after `processStateChange` is either the old one or the
incoming one. -/
theorem processStateChange_state_cases (s : server) (r : state) :
    (processStateChange s r).state = s.state ∨ (processStateChange s r).state = r := by
  unfold processStateChange
  split
  · exact Or.inl rfl
  · exact Or.inr rfl

/-- The held timestamp never decreases across `processStateChange`. -/
theorem processStateChange_le_TS_old (s : server) (r : state) :
    s.state.TS ≤ (processStateChange s r).state.TS := by
  unfold processStateChange
  split
  · exact le_refl _
  · next h => exact le_of_not_lt h

/-- After delivery of `r`, the held timestamp is at least `r.TS`. -/
theorem processStateChange_le_TS_new (s : server) (r : state) :
    r.TS ≤ (processStateChange s r).state.TS := by
  unfold processStateChange
  split
  · next h => exact le_of_lt h
  · exact le_refl _

/-- Every entry returned by a drain was in the queue it drained. -/
theorem drainEntries_mem (overhead : Nat) :
    ∀ (limit : Nat) (q : List Broadcast) (e : Broadcast),
      e ∈ drainEntries overhead limit q → e ∈ q := by
  intro limit q
  induction q generalizing limit with
  | nil =>
    intro e h
    simp [drainEntries] at h
  | cons a rest ih =>
    intro e h
    rw [drainEntries] at h
    split at h
    · rcases List.mem_cons.mp h with h1 | h1
      · rw [h1]
        exact List.mem_cons_self _ _
      · exact List.mem_cons_of_mem _ (ih _ _ h1)
    · exact List.mem_cons_of_mem _ (ih _ _ h)

/-- The reporter's output on the spec's three-node example: the score the
code prints is the nearest integer to 100·(2/3), which is 67. -/
theorem displayedScore_demo :
    displayedScore [⟨5, "red"⟩, ⟨5, "red"⟩, ⟨3, "blue"⟩] = 67 := by
  have h0 : reportNewest [⟨5, "red"⟩, ⟨5, "red"⟩, ⟨3, "blue"⟩] = ⟨5, "red"⟩ := by decide
  have h1 : reportCounts [⟨5, "red"⟩, ⟨5, "red"⟩, ⟨3, "blue"⟩] "red" = 2 := by decide
  have h2 : scoreQ [⟨5, "red"⟩, ⟨5, "red"⟩, ⟨3, "blue"⟩] = 200 / 3 := by
    unfold scoreQ
    rw [h0]
    norm_num [h1]
  unfold displayedScore
  rw [h2, round_eq]
  rw [show (200 : ℚ) / 3 + 1 / 2 = 403 / 6 by norm_num]
  apply Int.floor_eq_iff.mpr
  norm_num

/-! ## Claims -/

/-- C1: `processStateChange` rejects the incoming record, returning with no
side effects, exactly when its timestamp is strictly before the held one;
an incoming record with an equal or newer timestamp is always accepted and
replaces the held record (with the acceptance side effects). -/
theorem C1_conflict_resolution (s : server) (r : state) :
    (r.TS < s.state.TS → processStateChange s r = s) ∧
    (s.state.TS ≤ r.TS →
      (processStateChange s r).state = r ∧
      (processStateChange s r).updatesSent = s.updatesSent + 1) := by
  constructor
  · intro h
    unfold processStateChange
    rw [if_pos h]
  · intro h
    unfold processStateChange
    rw [if_neg (not_lt.mpr h)]
    exact ⟨rfl, rfl⟩

theorem C1_conflict_resolution_witness :
    processStateChange ⟨⟨10, "green"⟩, [], 0⟩ ⟨5, "blue"⟩ = ⟨⟨10, "green"⟩, [], 0⟩ ∧
    (processStateChange ⟨⟨3, "red"⟩, [], 0⟩ ⟨7, "blue"⟩).state = ⟨7, "blue"⟩ :=
  ⟨(C1_conflict_resolution _ _).1 (by decide),
   ((C1_conflict_resolution _ _).2 (by decide)).1⟩

/-- C2: for every sequence of incoming records delivered to one node in any
order, the finally held record is one of the delivered records (or the
initial one) and its timestamp is the maximum among all of them. -/
theorem C2_monotonicity (s : server) (rs : List state) :
    (deliverAll s rs).state ∈ s.state :: rs ∧
    ∀ r ∈ s.state :: rs, r.TS ≤ (deliverAll s rs).state.TS := by
  induction rs generalizing s with
  | nil =>
    simp [deliverAll]
  | cons a rest ih =>
    have hstep : deliverAll s (a :: rest) = deliverAll (processStateChange s a) rest := rfl
    obtain ⟨ihmem, ihbound⟩ := ih (processStateChange s a)
    have hhead : (processStateChange s a).state.TS
        ≤ (deliverAll (processStateChange s a) rest).state.TS :=
      ihbound _ (List.mem_cons_self _ _)
    constructor
    · rw [hstep]
      rcases List.mem_cons.mp ihmem with h | h
      · rcases processStateChange_state_cases s a with hc | hc
        · rw [h, hc]
          exact List.mem_cons_self _ _
        · rw [h, hc]
          exact List.mem_cons_of_mem _ (List.mem_cons_self _ _)
      · exact List.mem_cons_of_mem _ (List.mem_cons_of_mem _ h)
    · intro r hr
      rw [hstep]
      rcases List.mem_cons.mp hr with h | h
      · rw [h]
        exact le_trans (processStateChange_le_TS_old s a) hhead
      · rcases List.mem_cons.mp h with h2 | h2
        · rw [h2]
          exact le_trans (processStateChange_le_TS_new s a) hhead
        · exact ihbound r (List.mem_cons_of_mem _ h2)

theorem C2_monotonicity_witness :
    (deliverAll ⟨⟨2, "red"⟩, [], 0⟩ [⟨7, "blue"⟩, ⟨4, "green"⟩]).state
        ∈ (⟨2, "red"⟩ : state) :: [⟨7, "blue"⟩, ⟨4, "green"⟩] ∧
    (⟨4, "green"⟩ : state).TS
        ≤ (deliverAll ⟨⟨2, "red"⟩, [], 0⟩ [⟨7, "blue"⟩, ⟨4, "green"⟩]).state.TS :=
  ⟨(C2_monotonicity _ _).1,
   (C2_monotonicity _ _).2 _ (by decide)⟩

/-- C3: the claim says an undecodable payload is logged and discarded without
terminating the node; the code instead calls `s.logger.Fatal(err)` on decode
failure, which exits the whole process (`none` in the model): the node does
not survive a malformed payload. -/
theorem C3_malformed_payload_fatal :
    NotifyMsg ⟨⟨10, "green"⟩, [], 0⟩ Payload.malformed = none := rfl

/-- C4 counterexample: on the claim's input the code reports a score of 67,
not 66 — `%.0f` rounds 100·(2/3) ≈ 66.67 to the nearest integer. -/
theorem C4_counterexample :
    displayedScore [⟨5, "red"⟩, ⟨5, "red"⟩, ⟨3, "blue"⟩] ≠ 66 := by
  rw [displayedScore_demo]
  decide

/-- C4 (amended): for node states [(5,"red"), (5,"red"), (3,"blue")] the
reporter computes expected value "red", histogram {red 2, blue 1} (and no
other value counted), and prints a convergence score of 67%, the
nearest-integer percentage of 2/3. -/
theorem C4_score_report :
    reportNewest [⟨5, "red"⟩, ⟨5, "red"⟩, ⟨3, "blue"⟩] = ⟨5, "red"⟩ ∧
    reportCounts [⟨5, "red"⟩, ⟨5, "red"⟩, ⟨3, "blue"⟩] "red" = 2 ∧
    reportCounts [⟨5, "red"⟩, ⟨5, "red"⟩, ⟨3, "blue"⟩] "blue" = 1 ∧
    reportCounts [⟨5, "red"⟩, ⟨5, "red"⟩, ⟨3, "blue"⟩] "green" = 0 ∧
    displayedScore [⟨5, "red"⟩, ⟨5, "red"⟩, ⟨3, "blue"⟩] = 67 :=
  ⟨by decide, by decide, by decide, by decide, displayedScore_demo⟩

/-- C5: a stale incoming record (timestamp strictly before the held one) is
rejected with no observable effect: held state, broadcast queue and update
notifications are all unchanged. -/
theorem C5_stale_rejection (s : server) (r : state) (h : r.TS < s.state.TS) :
    (processStateChange s r).state = s.state ∧
    (processStateChange s r).queue = s.queue ∧
    (processStateChange s r).updatesSent = s.updatesSent := by
  unfold processStateChange
  rw [if_pos h]
  exact ⟨rfl, rfl, rfl⟩

theorem C5_stale_rejection_witness :
    (processStateChange ⟨⟨10, "green"⟩, [Broadcast.stateChange ⟨⟨10, "green"⟩⟩], 4⟩
        ⟨5, "blue"⟩).state = ⟨10, "green"⟩ ∧
    (processStateChange ⟨⟨10, "green"⟩, [Broadcast.stateChange ⟨⟨10, "green"⟩⟩], 4⟩
        ⟨5, "blue"⟩).queue = [Broadcast.stateChange ⟨⟨10, "green"⟩⟩] ∧
    (processStateChange ⟨⟨10, "green"⟩, [Broadcast.stateChange ⟨⟨10, "green"⟩⟩], 4⟩
        ⟨5, "blue"⟩).updatesSent = 4 :=
  C5_stale_rejection _ _ (by decide)

/-- C6: the conflict-resolution check accepts a record against itself, and
re-processing the held record leaves the held value and timestamp
unchanged. -/
theorem C6_idempotence (r : state) (q : List Broadcast) (n : Nat) :
    accept r r = true ∧
    (processStateChange ⟨r, q, n⟩ r).state = r := by
  constructor
  · simp [accept]
  · unfold processStateChange
    split
    · rfl
    · rfl

/-- C7: after enqueuing B with `B.Invalidates A`, A is no longer in the
queue and is not among the entries any drain of that queue selects; in
general a drain only ever returns entries of the queue it drains, so A stays
absent from every subsequent drain as long as it is not re-enqueued. -/
theorem C7_queue_invalidation (A B : StateChange) (q : List Broadcast)
    (h : StateChange.Invalidates B (Broadcast.stateChange A) = true) :
    Broadcast.stateChange A ∉ queueBroadcast B q ∧
    (∀ overhead limit,
      Broadcast.stateChange A ∉ drainEntries overhead limit (queueBroadcast B q)) ∧
    (∀ overhead limit (q₀ : List Broadcast),
      Broadcast.stateChange A ∉ q₀ →
      Broadcast.stateChange A ∉ drainEntries overhead limit q₀) := by
  have hTS : A.state.TS < B.state.TS := by
    simpa [StateChange.Invalidates] using h
  have hmem : Broadcast.stateChange A ∉ queueBroadcast B q := by
    unfold queueBroadcast
    intro hin
    rcases List.mem_append.mp hin with h1 | h1
    · have h2 := (List.mem_filter.mp h1).2
      rw [h] at h2
      simp at h2
    · have h3 : Broadcast.stateChange A = Broadcast.stateChange B :=
        List.mem_singleton.mp h1
      have h4 : A = B := by injection h3
      rw [h4] at hTS
      exact lt_irrefl _ hTS
  refine ⟨hmem, ?_, ?_⟩
  · intro overhead limit hin
    exact hmem (drainEntries_mem overhead limit _ _ hin)
  · intro overhead limit q₀ hq hin
    exact hq (drainEntries_mem overhead limit _ _ hin)

theorem C7_queue_invalidation_witness :
    Broadcast.stateChange ⟨⟨1, "blue"⟩⟩ ∉
      queueBroadcast ⟨⟨2, "red"⟩⟩ [Broadcast.stateChange ⟨⟨1, "blue"⟩⟩] ∧
    Broadcast.stateChange ⟨⟨1, "blue"⟩⟩ ∉
      drainEntries 3 100 (queueBroadcast ⟨⟨2, "red"⟩⟩ [Broadcast.stateChange ⟨⟨1, "blue"⟩⟩]) :=
  ⟨(C7_queue_invalidation _ _ _ (by decide)).1,
   (C7_queue_invalidation _ _ _ (by decide)).2.1 3 100⟩

/-- C8: `MergeRemoteState` has exactly the semantics of `NotifyMsg` on every
payload and every value of the `join` flag: same resulting node state, same
side effects, same fatal handling of malformed input. -/
theorem C8_merge_equals_notify (s : server) (buf : Payload) (join : Bool) :
    MergeRemoteState s buf join = NotifyMsg s buf := by
  cases buf <;> rfl

/-- C9: the state-exchange payload and the broadcast payload each serialize
exactly the current record's {timestamp, value}, and decoding such a payload
recovers the record that was serialized. -/
theorem C9_wire_round_trip (s : server) (join : Bool) (sc : StateChange) (r : state) :
    LocalState s join = Payload.record s.state.TS s.state.Value ∧
    StateChange.Message sc = Payload.record sc.state.TS sc.state.Value ∧
    jsonUnmarshalState (jsonMarshalState r) = some r :=
  ⟨rfl, rfl, rfl⟩

/-- C10: an incoming record with a timestamp equal to the held one is
accepted: the state is replaced, a notification is sent and a new broadcast
entry is enqueued; `Invalidates` holds only against another `StateChange`
with a strictly earlier timestamp, so a previously queued equal-timestamp
entry survives the enqueue and both entries are live in the queue. -/
theorem C10_equal_timestamp (s : server) (r : state) (h : r.TS = s.state.TS) :
    (processStateChange s r).state = r ∧
    (processStateChange s r).updatesSent = s.updatesSent + 1 ∧
    (processStateChange s r).queue =
      (s.queue.filter (fun e => !(StateChange.Invalidates ⟨r⟩ e)))
        ++ [Broadcast.stateChange ⟨r⟩] ∧
    (∀ b, StateChange.Invalidates (⟨r⟩ : StateChange) b = true →
      ∃ o, b = Broadcast.stateChange o ∧ o.state.TS < r.TS) ∧
    (∀ A : StateChange, A.state.TS = r.TS →
      StateChange.Invalidates (⟨r⟩ : StateChange) (Broadcast.stateChange A) = false) ∧
    (∀ A : StateChange, Broadcast.stateChange A ∈ s.queue → A.state.TS = r.TS →
      Broadcast.stateChange A ∈ (processStateChange s r).queue ∧
      Broadcast.stateChange (⟨r⟩ : StateChange) ∈ (processStateChange s r).queue) := by
  have hnot : ¬ r.TS < s.state.TS := by
    rw [h]
    exact lt_irrefl _
  have hq : processStateChange s r =
      { state := r
        queue := queueBroadcast ⟨r⟩ s.queue
        updatesSent := s.updatesSent + 1 } := by
    unfold processStateChange
    rw [if_neg hnot]
  refine ⟨by rw [hq], by rw [hq], by rw [hq]; rfl, ?_, ?_, ?_⟩
  · intro b hb
    cases b with
    | stateChange o =>
      refine ⟨o, rfl, ?_⟩
      simpa [StateChange.Invalidates] using hb
    | other => simp [StateChange.Invalidates] at hb
  · intro A hA
    simp [StateChange.Invalidates, hA]
  · intro A hmem hA
    rw [hq]
    constructor
    · apply List.mem_append_left
      apply List.mem_filter.mpr
      refine ⟨hmem, ?_⟩
      simp [StateChange.Invalidates, hA]
    · exact List.mem_append_right _ (List.mem_singleton.mpr rfl)

theorem C10_equal_timestamp_witness :
    (processStateChange ⟨⟨4, "red"⟩, [Broadcast.stateChange ⟨⟨4, "blue"⟩⟩], 0⟩
        ⟨4, "green"⟩).state = ⟨4, "green"⟩ ∧
    (processStateChange ⟨⟨4, "red"⟩, [Broadcast.stateChange ⟨⟨4, "blue"⟩⟩], 0⟩
        ⟨4, "green"⟩).updatesSent = 1 ∧
    Broadcast.stateChange ⟨⟨4, "blue"⟩⟩ ∈
      (processStateChange ⟨⟨4, "red"⟩, [Broadcast.stateChange ⟨⟨4, "blue"⟩⟩], 0⟩
        ⟨4, "green"⟩).queue ∧
    Broadcast.stateChange ⟨⟨4, "green"⟩⟩ ∈
      (processStateChange ⟨⟨4, "red"⟩, [Broadcast.stateChange ⟨⟨4, "blue"⟩⟩], 0⟩
        ⟨4, "green"⟩).queue := by
  have H := C10_equal_timestamp
    ⟨⟨4, "red"⟩, [Broadcast.stateChange ⟨⟨4, "blue"⟩⟩], 0⟩ ⟨4, "green"⟩ (by decide)
  have H6 := H.2.2.2.2.2 ⟨⟨4, "blue"⟩⟩ (by decide) (by decide)
  exact ⟨H.1, H.2.1, H6.1, H6.2⟩
